import Mathlib

/-!
Shallow embedding of `src/main.cpp`: a fan-out/join demo that spawns one
thread per `SumTask`, each summing `samples` random integers drawn
uniformly from `[min_val, max_val]`, and a `SumCoordinator` that reports
per-task totals (`summaries`) and the first maximal total (`best`).

Modelling choices, each traceable to the source:
* `ThreadRNG` seeds a Mersenne twister from entropy, the clock and the id
  hint; across runs its output stream is arbitrary.  A run of one task is
  therefore parameterised by the stream `draw : Nat → Int` of values its
  `uniform_int(min_val, max_val)` calls return; the guarantee of
  `std::uniform_int_distribution<int>` (output lies in the closed interval
  whenever `low ≤ high`) is the predicate `UniformDraws`.
* C++ `int` values are `Int`; `std::uint64_t` values are `Nat` taken
  modulo `2 ^ 64` exactly where the machine wraps (the cast in
  `SumTask::operator()` and the `+=` on the accumulator).
* `std::thread` handles are opaque; `threads_` keeps one `Unit` per
  spawned thread so that sizes can be compared.
* The constructor's `tasks_.reserve(thread_count)` converts its `int`
  argument to `std::size_t`; a negative count becomes at least
  `2 ^ 64 - 2 ^ 31`, which exceeds `vector<SumTask>::max_size()`, and
  `reserve` then throws `std::length_error`.  `SumCoordinator.construct`
  models the full constructor including this error path;
  `SumCoordinator.make` is its successful-construction branch.
* `std::max_element(first, last, comp)` on a nonempty range is the left
  fold `maxStep` over the tail started at the head: it keeps the current
  candidate unless `comp(candidate, next)` holds, so the first maximal
  element wins.  On an empty range it yields `none`, the end iterator,
  whose dereference in `best()` has no defined value.
-/

namespace ThreadSum

/-- Modulus of C++ `std::uint64_t` arithmetic. -/
def UINT64_MOD : Nat := 2 ^ 64

/-- Largest value of a 32-bit C++ `int` (`INT_MAX`). -/
def intMax : Int := 2 ^ 31 - 1

/-- `static_cast<std::uint64_t>` applied to a C++ `int`: reduction modulo
`2 ^ 64`, so a negative value `v` becomes `2 ^ 64 + v`. -/
def toUInt64 (v : Int) : Nat := (v % (UINT64_MOD : Int)).toNat

/-- Range guarantee of `ThreadRNG::uniform_int(low, high)` backed by
`std::uniform_int_distribution<int>`: every drawn value lies in the closed
interval `[low, high]` (meaningful when `low ≤ high`). -/
def UniformDraws (draw : Nat → Int) (low high : Int) : Prop :=
  ∀ i, low ≤ draw i ∧ draw i ≤ high

/-- `SumTask::Config`: id, number of samples and inclusive value bounds. -/
structure Config where
  id : Int
  samples : Int
  min_val : Int
  max_val : Int
deriving DecidableEq

/-- `SumTask`: its configuration and its `std::uint64_t` accumulator. -/
structure SumTask where
  cfg_ : Config
  result_ : Nat
deriving DecidableEq

/-- `SumTask::SumTask(cfg)`: stores the configuration and initialises
`result_(0)`. -/
def SumTask.make (cfg : Config) : SumTask := ⟨cfg, 0⟩

/-- Accessor `SumTask::id()`. -/
def SumTask.id (t : SumTask) : Int := t.cfg_.id

/-- Accessor `SumTask::result()`. -/
def SumTask.result (t : SumTask) : Nat := t.result_

/-- `SumTask::operator()()` run with RNG output stream `draw`: the loop
`for (int i = 0; i < cfg_.samples; ++i)` executes `cfg_.samples.toNat`
times (zero times when `samples ≤ 0`), each iteration adding the cast of
the drawn value to the `uint64_t` accumulator modulo `2 ^ 64`; the final
accumulator is stored in `result_`. -/
def SumTask.run (draw : Nat → Int) (t : SumTask) : SumTask :=
  { t with
    result_ :=
      (List.range t.cfg_.samples.toNat).foldl
        (fun acc i => (acc + toUInt64 (draw i)) % UINT64_MOD) 0 }

/-- `SumCoordinator`: the task list and the spawned thread handles. -/
structure SumCoordinator where
  tasks_ : List SumTask
  threads_ : List Unit
deriving DecidableEq

/-- Successful-construction branch of `SumCoordinator::SumCoordinator`:
once `tasks_.reserve(thread_count)` has returned (see
`SumCoordinator.construct` for its failure on negative counts), the loop
`for (int i = 0; i < thread_count; ++i)` emplaces one task with config
`{i, samples_per_thread, minv, maxv}` per iteration — `thread_count.toNat`
tasks in total.  The bounds are stored without any validation.
`threads_` starts empty. -/
def SumCoordinator.make (thread_count samples_per_thread minv maxv : Int) :
    SumCoordinator :=
  { tasks_ :=
      (List.range thread_count.toNat).map
        (fun i : Nat => SumTask.make ⟨(i : Int), samples_per_thread, minv, maxv⟩)
    threads_ := [] }

/-- `std::vector<SumTask>::max_size()` on the modelled LP64 platform:
`PTRDIFF_MAX / sizeof(SumTask)` with `sizeof(SumTask) = 24` (four `int`
configuration fields plus the `std::uint64_t` accumulator).  The proofs
depend only on two facts true of any conforming implementation: every
count in `[0, INT_MAX]` is below this bound, and every negative `int`,
converted to `std::size_t`, is above it. -/
def vectorMaxSize : Nat := (2 ^ 63 - 1) / 24

/-- Full `SumCoordinator::SumCoordinator`: `tasks_.reserve(thread_count)`
converts its `int` argument to `std::size_t` (reduction modulo `2 ^ 64`,
exactly as `toUInt64`), and `reserve` throws `std::length_error` when the
requested capacity exceeds `max_size()` — which is the case precisely for
negative `thread_count`, since `2 ^ 64 - 2 ^ 31 > max_size()`.  When
`reserve` returns, construction proceeds as `SumCoordinator.make`. -/
def SumCoordinator.construct (thread_count samples_per_thread minv maxv :
    Int) : Except String SumCoordinator :=
  if vectorMaxSize < toUInt64 thread_count then
    Except.error "length_error"
  else
    Except.ok (SumCoordinator.make thread_count samples_per_thread minv maxv)

/-- Execution of the spawned threads: the thread for the `k`-th task runs
that task to completion on its own RNG stream `draws k`.  Threads are
independent, so the joined outcome is each task updated in place. -/
def runTasks (draws : Nat → Nat → Int) : Nat → List SumTask → List SumTask
  | _, [] => []
  | k, t :: ts => SumTask.run (draws k) t :: runTasks draws (k + 1) ts

/-- `SumCoordinator::run_all()`: spawns one thread per task (appending one
handle per task to `threads_`) and joins them all; after the join barrier
every task holds the result of its own run. -/
def SumCoordinator.run_all (draws : Nat → Nat → Int) (c : SumCoordinator) :
    SumCoordinator :=
  { tasks_ := runTasks draws 0 c.tasks_
    threads_ := c.threads_ ++ c.tasks_.map (fun _ => ()) }

/-- `SumCoordinator::summaries()`: one `(id, result)` pair per task, in
task order. -/
def SumCoordinator.summaries (c : SumCoordinator) : List (Int × Nat) :=
  c.tasks_.map (fun t => (t.id, t.result))

/-- One comparison step of `std::max_element` with comparator
`a.result() < b.result()`: the candidate is replaced exactly when the next
element compares strictly greater. -/
def maxStep (b t : SumTask) : SumTask := if b.result < t.result then t else b

/-- `std::max_element(tasks_.begin(), tasks_.end(), comp)`: `none` is the
end iterator (empty range); otherwise the left fold of `maxStep` over the
tail, started at the head. -/
def maxElement : List SumTask → Option SumTask
  | [] => none
  | x :: xs => some (xs.foldl maxStep x)

/-- `SumCoordinator::best()`: dereferences the iterator returned by
`std::max_element`; on an empty task list that iterator is the end
iterator and the dereference has no defined value (`none`). -/
def SumCoordinator.best (c : SumCoordinator) : Option (Int × Nat) :=
  (maxElement c.tasks_).map (fun t => (t.id, t.result))

/-! ### Basic lemmas about the embedding -/

lemma SumTask.run_cfg (draw : Nat → Int) (t : SumTask) :
    (t.run draw).cfg_ = t.cfg_ := rfl

lemma runTasks_map_cfg (draws : Nat → Nat → Int) (k : Nat)
    (l : List SumTask) :
    (runTasks draws k l).map SumTask.cfg_ = l.map SumTask.cfg_ := by
  induction l generalizing k with
  | nil => rfl
  | cons t ts ih => simp [runTasks, SumTask.run_cfg, ih]

lemma runTasks_length (draws : Nat → Nat → Int) (k : Nat)
    (l : List SumTask) :
    (runTasks draws k l).length = l.length := by
  induction l generalizing k with
  | nil => rfl
  | cons t ts ih => simp [runTasks, ih]

lemma make_tasks_map_cfg (tc s mn mx : Int) :
    (SumCoordinator.make tc s mn mx).tasks_.map SumTask.cfg_ =
      (List.range tc.toNat).map (fun i : Nat => ⟨(i : Int), s, mn, mx⟩) := by
  simp [SumCoordinator.make, SumTask.make, List.map_map, Function.comp]

lemma run_all_tasks_map_cfg (tc s mn mx : Int) (draws : Nat → Nat → Int) :
    ((SumCoordinator.make tc s mn mx).run_all draws).tasks_.map SumTask.cfg_ =
      (List.range tc.toNat).map (fun i : Nat => ⟨(i : Int), s, mn, mx⟩) := by
  simp [SumCoordinator.run_all, runTasks_map_cfg, make_tasks_map_cfg]

lemma run_all_tasks_length (tc s mn mx : Int) (draws : Nat → Nat → Int) :
    ((SumCoordinator.make tc s mn mx).run_all draws).tasks_.length =
      tc.toNat := by
  simp [SumCoordinator.run_all, runTasks_length, SumCoordinator.make]

lemma summaries_map_fst (c : SumCoordinator) :
    c.summaries.map Prod.fst = c.tasks_.map SumTask.id := by
  simp [SumCoordinator.summaries, List.map_map, Function.comp]

lemma tasks_map_id_eq (c : SumCoordinator) :
    c.tasks_.map SumTask.id = (c.tasks_.map SumTask.cfg_).map Config.id := by
  simp [List.map_map, Function.comp, SumTask.id]

lemma toUInt64_of_nonneg (v : Int) (h0 : 0 ≤ v) (h1 : v < (UINT64_MOD : Int)) :
    toUInt64 v = v.toNat := by
  unfold toUInt64
  rw [Int.emod_eq_of_lt h0 h1]

/-! ### Claim theorems: construction, summaries, sizes -/

/-- C9: every `SumTask` is constructed with its accumulator equal to `0`,
so `summaries()` called before `run_all()` returns `(id, 0)` for every
task — the ids `0, …, thread_count-1` paired with `0`. -/
theorem initial_result_zero (cfg : Config) (tc s mn mx : Int) :
    (SumTask.make cfg).result_ = 0 ∧
    (SumCoordinator.make tc s mn mx).summaries =
      (List.range tc.toNat).map (fun i : Nat => ((i : Int), (0 : Nat))) := by
  constructor
  · rfl
  · simp [SumCoordinator.summaries, SumCoordinator.make, List.map_map,
      Function.comp, SumTask.id, SumTask.result, SumTask.make]

/-- C10: when `samples ≤ 0` the loop `for (int i = 0; i < samples; ++i)`
performs zero iterations, so `run()` stores result exactly `0`; no error
is raised (the run is total). -/
theorem nonpositive_samples_zero_result (cfg : Config) (draw : Nat → Int)
    (h : cfg.samples ≤ 0) :
    cfg.samples.toNat = 0 ∧ ((SumTask.make cfg).run draw).result_ = 0 := by
  have h0 : cfg.samples.toNat = 0 := Int.toNat_of_nonpos h
  refine ⟨h0, ?_⟩
  simp [SumTask.run, SumTask.make, h0]

/-- Witness for `nonpositive_samples_zero_result` at `samples = -5`. -/
theorem nonpositive_samples_zero_result_attained :
    ((-5 : Int) ≤ 0) ∧
      ((-5 : Int).toNat = 0 ∧
        ((SumTask.make ⟨0, -5, 1, 10⟩).run (fun _ => 3)).result_ = 0) :=
  ⟨by decide, nonpositive_samples_zero_result ⟨0, -5, 1, 10⟩ (fun _ => 3)
    (by decide)⟩

/-- C4 (amended): validation is asymmetric.  Constructing with
`thread_count < 0` does fail before any thread is spawned — not by an
explicit precondition check, but because `tasks_.reserve` converts the
negative count to a `std::size_t` exceeding `max_size()` and throws
`std::length_error`.  Constructing with `min_value > max_value`, however,
does not fail: whenever `thread_count ≥ 0` the coordinator is silently
constructed, the invalid bounds stored unchecked in every task.  (The
hypotheses confine `thread_count` to the C++ `int` range.) -/
theorem constructor_validation_asymmetry (tc s mn mx : Int)
    (hlo : -(2 ^ 31) ≤ tc) (hhi : tc ≤ intMax) :
    (tc < 0 → SumCoordinator.construct tc s mn mx =
        Except.error "length_error") ∧
    (0 ≤ tc → SumCoordinator.construct tc s mn mx =
        Except.ok (SumCoordinator.make tc s mn mx) ∧
      (SumCoordinator.make tc s mn mx).tasks_.map SumTask.cfg_ =
        (List.range tc.toNat).map
          (fun i : Nat => ⟨(i : Int), s, mn, mx⟩)) := by
  have hM : (UINT64_MOD : Int) = 18446744073709551616 := by
    norm_num [UINT64_MOD]
  constructor
  · intro hneg
    have hmod : tc % (UINT64_MOD : Int) = tc + 18446744073709551616 := by
      rw [hM]
      omega
    have hbig : vectorMaxSize < toUInt64 tc := by
      have h1 : (18446744071562067968 : Int).toNat ≤ toUInt64 tc := by
        unfold toUInt64
        rw [hmod]
        exact Int.toNat_le_toNat (by omega)
      have h2 : (18446744071562067968 : Int).toNat =
          18446744071562067968 := rfl
      have h3 : vectorMaxSize < 18446744071562067968 := by
        norm_num [vectorMaxSize]
      omega
    unfold SumCoordinator.construct
    rw [if_pos hbig]
  · intro hpos
    have hltM : tc < (UINT64_MOD : Int) := by
      rw [hM]
      have h4 : intMax < (18446744073709551616 : Int) := by
        norm_num [intMax]
      omega
    have h1 : toUInt64 tc = tc.toNat := toUInt64_of_nonneg tc hpos hltM
    have h2 : tc.toNat ≤ intMax.toNat := Int.toNat_le_toNat hhi
    have h3 : intMax.toNat < vectorMaxSize := by
      norm_num [intMax, vectorMaxSize]
    have hsmall : ¬ vectorMaxSize < toUInt64 tc := by omega
    refine ⟨?_, make_tasks_map_cfg tc s mn mx⟩
    unfold SumCoordinator.construct
    rw [if_neg hsmall]

/-- Witness for `constructor_validation_asymmetry`: `thread_count = -1`
makes `reserve` throw, while `thread_count = 2` with the invalid bounds
`min_val = 10 > 1 = max_val` constructs silently. -/
theorem constructor_validation_asymmetry_attained :
    (SumCoordinator.construct (-1) 5 1 10 = Except.error "length_error") ∧
      (SumCoordinator.construct 2 5 10 1 =
          Except.ok (SumCoordinator.make 2 5 10 1) ∧
        (SumCoordinator.make 2 5 10 1).tasks_.map SumTask.cfg_ =
          (List.range (2 : Int).toNat).map
            (fun i : Nat => ⟨(i : Int), 5, 10, 1⟩)) :=
  ⟨(constructor_validation_asymmetry (-1) 5 1 10 (by norm_num)
      (by norm_num [intMax])).1 (by norm_num),
    (constructor_validation_asymmetry 2 5 10 1 (by norm_num)
      (by norm_num [intMax])).2 (by norm_num)⟩

/-- Counterexample to C4 as stated: constructing with
`min_value = 10 > 1 = max_value` does not fail — the full constructor
(including `reserve`) returns a coordinator whose two tasks store the
invalid bounds unchecked. -/
theorem invalid_bounds_construct_silently :
    SumCoordinator.construct 2 5 10 1 =
      Except.ok (SumCoordinator.make 2 5 10 1) ∧
    (SumCoordinator.make 2 5 10 1).tasks_.length = 2 ∧
    (SumCoordinator.make 2 5 10 1).tasks_.map SumTask.cfg_ =
      [⟨0, 5, 10, 1⟩, ⟨1, 5, 10, 1⟩] :=
  ⟨rfl, rfl, rfl⟩

/-- C3: after construction with `thread_count ≥ 0` (and any run),
`summaries()` has exactly `thread_count` entries and its ids are exactly
`0, …, thread_count-1`, each once, in ascending order. -/
theorem summaries_ids_ascending (tc s mn mx : Int) (draws : Nat → Nat → Int)
    (h0 : 0 ≤ tc) (hmm : mn ≤ mx) :
    ((SumCoordinator.make tc s mn mx).run_all draws).summaries.length =
      tc.toNat ∧
    ((SumCoordinator.make tc s mn mx).run_all draws).summaries.map Prod.fst =
      (List.range tc.toNat).map (fun i : Nat => (i : Int)) := by
  constructor
  · simp [SumCoordinator.summaries, run_all_tasks_length]
  · rw [summaries_map_fst, tasks_map_id_eq, run_all_tasks_map_cfg,
      List.map_map]
    simp [Function.comp]

/-- Witness for `summaries_ids_ascending` at `thread_count = 3`. -/
theorem summaries_ids_ascending_attained :
    ((0 : Int) ≤ 3 ∧ (1 : Int) ≤ 10) ∧
      (((SumCoordinator.make 3 5 1 10).run_all (fun _ _ => 1)).summaries.length
          = (3 : Int).toNat ∧
        ((SumCoordinator.make 3 5 1 10).run_all
            (fun _ _ => 1)).summaries.map Prod.fst =
          (List.range (3 : Int).toNat).map (fun i : Nat => (i : Int))) :=
  ⟨⟨by decide, by decide⟩,
    summaries_ids_ascending 3 5 1 10 (fun _ _ => 1) (by decide) (by decide)⟩

/-- C8: after `run_all()` completes, the coordinator holds as many thread
handles as tasks (`tasks_.size() == threads_.size()`). -/
theorem tasks_threads_length_eq (tc s mn mx : Int) (draws : Nat → Nat → Int)
    (h0 : 0 ≤ tc) :
    ((SumCoordinator.make tc s mn mx).run_all draws).tasks_.length =
      ((SumCoordinator.make tc s mn mx).run_all draws).threads_.length := by
  simp [SumCoordinator.run_all, runTasks_length, SumCoordinator.make]

/-- Witness for `tasks_threads_length_eq` at `thread_count = 3`. -/
theorem tasks_threads_length_eq_attained :
    ((0 : Int) ≤ 3) ∧
      ((SumCoordinator.make 3 5 1 10).run_all (fun _ _ => 1)).tasks_.length =
        ((SumCoordinator.make 3 5 1 10).run_all
            (fun _ _ => 1)).threads_.length :=
  ⟨by decide, tasks_threads_length_eq 3 5 1 10 (fun _ _ => 1) (by decide)⟩

/-- C5: `best()` is well-defined exactly on nonempty coordinators: with at
least one task `std::max_element` never returns the end iterator and
`best()` yields a value, while with zero tasks it returns the end iterator
whose dereference has no defined value. -/
theorem best_requires_nonempty (c : SumCoordinator) :
    (c.tasks_ ≠ [] → ∃ p, c.best = some p) ∧
    (c.tasks_ = [] → maxElement c.tasks_ = none ∧ c.best = none) := by
  constructor
  · intro hne
    match hl : c.tasks_ with
    | [] => exact absurd hl hne
    | x :: xs =>
      refine ⟨((xs.foldl maxStep x).id, (xs.foldl maxStep x).result), ?_⟩
      simp [SumCoordinator.best, hl, maxElement]
  · intro he
    simp [SumCoordinator.best, he, maxElement]

/-- Witness for `best_requires_nonempty`: a one-task coordinator gives a
value; the empty coordinator hits the end iterator. -/
theorem best_requires_nonempty_attained :
    (∃ p, (SumCoordinator.make 1 0 0 0).best = some p) ∧
      (maxElement (SumCoordinator.make 0 0 0 0).tasks_ = none ∧
        (SumCoordinator.make 0 0 0 0).best = none) :=
  ⟨(best_requires_nonempty (SumCoordinator.make 1 0 0 0)).1 (by decide),
    (best_requires_nonempty (SumCoordinator.make 0 0 0 0)).2 (by decide)⟩

/-! ### Stable first-max selection (`std::max_element`) -/

lemma foldl_maxStep_spec (xs : List SumTask) (b : SumTask)
    (hlt : ∀ t ∈ xs, b.id < t.id)
    (hpw : xs.Pairwise (fun a c => a.id < c.id)) :
    xs.foldl maxStep b ∈ b :: xs ∧
    (∀ t ∈ b :: xs, t.result ≤ (xs.foldl maxStep b).result) ∧
    (∀ t ∈ b :: xs, t.result = (xs.foldl maxStep b).result →
      (xs.foldl maxStep b).id ≤ t.id) := by
  induction xs generalizing b with
  | nil =>
      refine ⟨List.mem_cons_self b [], ?_, ?_⟩
      · intro t ht
        rcases List.mem_cons.mp ht with rfl | h
        · exact le_refl _
        · cases h
      · intro t ht _
        rcases List.mem_cons.mp ht with rfl | h
        · exact le_refl _
        · cases h
  | cons x xs ih =>
      rcases List.pairwise_cons.mp hpw with ⟨hx, hpw2⟩
      have hblt : b.id < x.id := hlt x (List.mem_cons_self x xs)
      have hfold : (x :: xs).foldl maxStep b = xs.foldl maxStep (maxStep b x) :=
        rfl
      by_cases hc : b.result < x.result
      · have hb2 : maxStep b x = x := if_pos hc
        obtain ⟨hmem, hub, hfirst⟩ := ih x hx hpw2
        rw [hfold, hb2]
        refine ⟨List.mem_cons_of_mem b hmem, ?_, ?_⟩
        · intro t ht
          rcases List.mem_cons.mp ht with rfl | h
          · exact le_of_lt
              (lt_of_lt_of_le hc (hub x (List.mem_cons_self x xs)))
          · exact hub t h
        · intro t ht hres
          rcases List.mem_cons.mp ht with rfl | h
          · exact absurd hres
              (ne_of_lt (lt_of_lt_of_le hc (hub x (List.mem_cons_self x xs))))
          · exact hfirst t h hres
      · have hb2 : maxStep b x = b := if_neg hc
        have hxb : x.result ≤ b.result := not_lt.mp hc
        have hlt2 : ∀ t ∈ xs, b.id < t.id := fun t ht =>
          hlt t (List.mem_cons_of_mem x ht)
        obtain ⟨hmem, hub, hfirst⟩ := ih b hlt2 hpw2
        rw [hfold, hb2]
        have hbm : b.result ≤ (xs.foldl maxStep b).result :=
          hub b (List.mem_cons_self b xs)
        refine ⟨?_, ?_, ?_⟩
        · rcases List.mem_cons.mp hmem with h | h
          · rw [h]
            exact List.mem_cons_self _ _
          · exact List.mem_cons_of_mem b (List.mem_cons_of_mem x h)
        · intro t ht
          rcases List.mem_cons.mp ht with rfl | h2
          · exact hbm
          · rcases List.mem_cons.mp h2 with rfl | h3
            · exact le_trans hxb hbm
            · exact hub t (List.mem_cons_of_mem b h3)
        · intro t ht hres
          rcases List.mem_cons.mp ht with rfl | h2
          · exact hfirst t (List.mem_cons_self t xs) hres
          · rcases List.mem_cons.mp h2 with rfl | h3
            · have hbeq : b.result = (xs.foldl maxStep b).result :=
                le_antisymm hbm (hres ▸ hxb)
              exact le_trans
                (hfirst b (List.mem_cons_self b xs) hbeq) (le_of_lt hblt)
            · exact hfirst t (List.mem_cons_of_mem b h3) hres

lemma maxElement_spec (l : List SumTask) (hne : l ≠ [])
    (hpw : l.Pairwise (fun a c => a.id < c.id)) :
    ∃ m, maxElement l = some m ∧ m ∈ l ∧
      (∀ t ∈ l, t.result ≤ m.result) ∧
      (∀ t ∈ l, t.result = m.result → m.id ≤ t.id) := by
  cases l with
  | nil => exact absurd rfl hne
  | cons x xs =>
      rcases List.pairwise_cons.mp hpw with ⟨hx, hpw2⟩
      obtain ⟨hmem, hub, hfirst⟩ := foldl_maxStep_spec xs x hx hpw2
      exact ⟨xs.foldl maxStep x, rfl, hmem, hub, hfirst⟩

lemma run_all_tasks_map_id (tc s mn mx : Int) (draws : Nat → Nat → Int) :
    ((SumCoordinator.make tc s mn mx).run_all draws).tasks_.map SumTask.id =
      (List.range tc.toNat).map (fun i : Nat => (i : Int)) := by
  rw [tasks_map_id_eq, run_all_tasks_map_cfg, List.map_map]
  simp [Function.comp]

lemma run_all_tasks_pairwise_id (tc s mn mx : Int)
    (draws : Nat → Nat → Int) :
    ((SumCoordinator.make tc s mn mx).run_all draws).tasks_.Pairwise
      (fun a c => a.id < c.id) := by
  have hp : (((SumCoordinator.make tc s mn mx).run_all draws).tasks_.map
      SumTask.id).Pairwise (· < ·) := by
    rw [run_all_tasks_map_id]
    refine List.pairwise_map.mpr ?_
    refine (List.pairwise_lt_range tc.toNat).imp ?_
    intro a b hab
    exact_mod_cast hab
  exact List.pairwise_map.mp hp

/-- C1: `best()` returns a pair present in `summaries()` whose result is
the maximum over all entries, and among entries attaining that maximum the
one with the smallest id (the first in creation order) is returned. -/
theorem best_returns_first_max (tc s mn mx : Int) (draws : Nat → Nat → Int)
    (htc : 0 < tc) :
    ∃ i r,
      ((SumCoordinator.make tc s mn mx).run_all draws).best = some (i, r) ∧
      (i, r) ∈ ((SumCoordinator.make tc s mn mx).run_all draws).summaries ∧
      (∀ p ∈ ((SumCoordinator.make tc s mn mx).run_all draws).summaries,
        p.2 ≤ r) ∧
      (∀ p ∈ ((SumCoordinator.make tc s mn mx).run_all draws).summaries,
        p.2 = r → i ≤ p.1) := by
  have hne : ((SumCoordinator.make tc s mn mx).run_all draws).tasks_ ≠ [] := by
    intro h
    have hlen := run_all_tasks_length tc s mn mx draws
    rw [h] at hlen
    simp only [List.length_nil] at hlen
    omega
  obtain ⟨m, hmax, hmem, hub, hfirst⟩ :=
    maxElement_spec _ hne (run_all_tasks_pairwise_id tc s mn mx draws)
  refine ⟨m.id, m.result, ?_, ?_, ?_, ?_⟩
  · simp [SumCoordinator.best, hmax]
  · exact List.mem_map_of_mem (fun t => (t.id, t.result)) hmem
  · intro p hp
    rcases List.mem_map.mp hp with ⟨t, ht, rfl⟩
    exact hub t ht
  · intro p hp hres
    rcases List.mem_map.mp hp with ⟨t, ht, rfl⟩
    exact hfirst t ht hres

/-- Witness for `best_returns_first_max`: two tasks with zero samples tie
at result `0`; the winner is the smaller id. -/
theorem best_returns_first_max_attained :
    (0 : Int) < 2 ∧
      ∃ i r,
        ((SumCoordinator.make 2 0 0 0).run_all (fun _ _ => 0)).best =
          some (i, r) ∧
        (i, r) ∈
          ((SumCoordinator.make 2 0 0 0).run_all (fun _ _ => 0)).summaries ∧
        (∀ p ∈ ((SumCoordinator.make 2 0 0 0).run_all
            (fun _ _ => 0)).summaries, p.2 ≤ r) ∧
        (∀ p ∈ ((SumCoordinator.make 2 0 0 0).run_all
            (fun _ _ => 0)).summaries, p.2 = r → i ≤ p.1) :=
  ⟨by decide, best_returns_first_max 2 0 0 0 (fun _ _ => 0) (by decide)⟩

/-! ### Accumulation: wrap-around analysis of the `uint64_t` sum -/

lemma accum_no_wrap (draw : Nat → Int) (n : Nat)
    (hb : ∀ i, i < n → toUInt64 (draw i) < 2 ^ 31) (hn : n ≤ 2 ^ 31) :
    (List.range n).foldl
        (fun acc i => (acc + toUInt64 (draw i)) % UINT64_MOD) 0 =
      ∑ i in Finset.range n, toUInt64 (draw i) := by
  induction n with
  | zero => simp
  | succ n ih =>
      have hb2 : ∀ i, i < n → toUInt64 (draw i) < 2 ^ 31 :=
        fun i hi => hb i (Nat.lt_succ_of_lt hi)
      have hn2 : n ≤ 2 ^ 31 := Nat.le_of_succ_le hn
      have hsum :
          ∑ i in Finset.range (n + 1), toUInt64 (draw i) < UINT64_MOD := by
        have hle : ∑ i in Finset.range (n + 1), toUInt64 (draw i) ≤
            (n + 1) * 2 ^ 31 := by
          have hcn := Finset.sum_le_card_nsmul (Finset.range (n + 1))
            (fun i => toUInt64 (draw i)) (2 ^ 31)
            (fun i hi => le_of_lt (hb i (Finset.mem_range.mp hi)))
          simpa [Finset.card_range, smul_eq_mul] using hcn
        have h2 : (n + 1) * 2 ^ 31 ≤ (2 ^ 31 + 1) * 2 ^ 31 :=
          Nat.mul_le_mul_right _ (by omega)
        calc ∑ i in Finset.range (n + 1), toUInt64 (draw i)
            ≤ (n + 1) * 2 ^ 31 := hle
          _ ≤ (2 ^ 31 + 1) * 2 ^ 31 := h2
          _ < UINT64_MOD := by norm_num [UINT64_MOD]
      rw [List.range_succ, List.foldl_append, ih hb2 hn2]
      simp only [List.foldl_cons, List.foldl_nil]
      rw [← Finset.sum_range_succ]
      exact Nat.mod_eq_of_lt hsum

lemma run_result_int_sum (cfg : Config) (draw : Nat → Int)
    (h0 : 0 ≤ cfg.min_val) (hs0 : 0 ≤ cfg.samples)
    (hsM : cfg.samples ≤ intMax) (hvM : cfg.max_val ≤ intMax)
    (hdraw : UniformDraws draw cfg.min_val cfg.max_val) :
    (((SumTask.make cfg).run draw).result_ : Int) =
      ∑ i in Finset.range cfg.samples.toNat, draw i := by
  have hnn : ∀ i, 0 ≤ draw i := fun i => le_trans h0 (hdraw i).1
  have hmod : intMax < (UINT64_MOD : Int) := by
    norm_num [intMax, UINT64_MOD]
  have hlt64 : ∀ i, draw i < (UINT64_MOD : Int) := by
    intro i
    have h1 : draw i ≤ cfg.max_val := (hdraw i).2
    omega
  have hcast : ∀ i, toUInt64 (draw i) = (draw i).toNat := fun i =>
    toUInt64_of_nonneg (draw i) (hnn i) (hlt64 i)
  have hmax31 : intMax.toNat < 2 ^ 31 := by norm_num [intMax]
  have hb : ∀ i, i < cfg.samples.toNat → toUInt64 (draw i) < 2 ^ 31 := by
    intro i _
    rw [hcast i]
    have h1 : (draw i).toNat ≤ intMax.toNat :=
      Int.toNat_le_toNat (le_trans (hdraw i).2 hvM)
    omega
  have hn : cfg.samples.toNat ≤ 2 ^ 31 := by
    have h1 : cfg.samples.toNat ≤ intMax.toNat := Int.toNat_le_toNat hsM
    omega
  have hres : ((SumTask.make cfg).run draw).result_ =
      ∑ i in Finset.range cfg.samples.toNat, toUInt64 (draw i) := by
    simpa [SumTask.run, SumTask.make] using
      accum_no_wrap draw cfg.samples.toNat hb hn
  rw [hres]
  push_cast
  refine Finset.sum_congr rfl ?_
  intro i _
  rw [hcast i]
  exact Int.toNat_of_nonneg (hnn i)

/-- C2 (amended): for a nonnegative range `0 ≤ min_val ≤ max_val` within
the `int` range and `0 ≤ samples ≤ INT_MAX`, the stored result satisfies
`min_val * samples ≤ result ≤ max_val * samples`.  (For negative
`min_val` the claim fails: see the counterexample — the cast to
`uint64_t` wraps negative draws.) -/
theorem result_within_bounds (cfg : Config) (draw : Nat → Int)
    (h0 : 0 ≤ cfg.min_val) (hmm : cfg.min_val ≤ cfg.max_val)
    (hs0 : 0 ≤ cfg.samples) (hsM : cfg.samples ≤ intMax)
    (hvM : cfg.max_val ≤ intMax)
    (hdraw : UniformDraws draw cfg.min_val cfg.max_val) :
    cfg.min_val * cfg.samples ≤
        (((SumTask.make cfg).run draw).result_ : Int) ∧
      (((SumTask.make cfg).run draw).result_ : Int) ≤
        cfg.max_val * cfg.samples := by
  rw [run_result_int_sum cfg draw h0 hs0 hsM hvM hdraw]
  have hcard : ((cfg.samples.toNat : Int)) = cfg.samples :=
    Int.toNat_of_nonneg hs0
  constructor
  · have h1 : (∑ i in Finset.range cfg.samples.toNat, cfg.min_val) ≤
        ∑ i in Finset.range cfg.samples.toNat, draw i :=
      Finset.sum_le_sum (fun i _ => (hdraw i).1)
    rw [Finset.sum_const, Finset.card_range, nsmul_eq_mul, hcard] at h1
    rw [mul_comm cfg.min_val cfg.samples]
    exact h1
  · have h2 : (∑ i in Finset.range cfg.samples.toNat, draw i) ≤
        ∑ i in Finset.range cfg.samples.toNat, cfg.max_val :=
      Finset.sum_le_sum (fun i _ => (hdraw i).2)
    rw [Finset.sum_const, Finset.card_range, nsmul_eq_mul, hcard] at h2
    rw [mul_comm cfg.max_val cfg.samples]
    exact h2

/-- Witness for `result_within_bounds`: two draws of `2` from `[1, 3]`
give `2 ≤ 4 ≤ 6`. -/
theorem result_within_bounds_attained :
    (1 : Int) * 2 ≤ (((SumTask.make ⟨0, 2, 1, 3⟩).run (fun _ => 2)).result_ :
        Int) ∧
      (((SumTask.make ⟨0, 2, 1, 3⟩).run (fun _ => 2)).result_ : Int) ≤
        3 * 2 :=
  result_within_bounds ⟨0, 2, 1, 3⟩ (fun _ => 2) (by decide) (by decide)
    (by decide) (by decide) (by decide) (fun i => ⟨by norm_num, by norm_num⟩)

/-- Counterexample to C2 as stated: the configuration
`min_val = max_val = -3`, `samples = 1` satisfies `min_value ≤ max_value`
and `samples ≥ 0`, and the single drawn value `-3` lies in `[-3, -3]`,
yet the stored `uint64_t` result is `2 ^ 64 - 3`, which violates
`result ≤ max_value * samples = -3`. -/
theorem result_bound_fails_for_negative_values :
    (((SumTask.make ⟨0, 1, -3, -3⟩).run (fun _ => -3)).result_ : Int) =
        2 ^ 64 - 3 ∧
      ¬ ((((SumTask.make ⟨0, 1, -3, -3⟩).run (fun _ => -3)).result_ : Int) ≤
          (-3) * 1) := by
  constructor
  · decide
  · decide

/-- C6 (amended): for a nonnegative range `0 ≤ min_val ≤ max_val ≤
INT_MAX` and `0 ≤ samples ≤ INT_MAX`, the 64-bit accumulation never
wraps: the stored result equals the exact mathematical sum of the drawn
values.  (For negative draws the cast to `uint64_t` wraps and the claim
fails: see the counterexample.) -/
theorem no_overflow_exact_sum (cfg : Config) (draw : Nat → Int)
    (h0 : 0 ≤ cfg.min_val) (hmm : cfg.min_val ≤ cfg.max_val)
    (hs0 : 0 ≤ cfg.samples) (hsM : cfg.samples ≤ intMax)
    (hvM : cfg.max_val ≤ intMax)
    (hdraw : UniformDraws draw cfg.min_val cfg.max_val) :
    (((SumTask.make cfg).run draw).result_ : Int) =
      ∑ i in Finset.range cfg.samples.toNat, draw i :=
  run_result_int_sum cfg draw h0 hs0 hsM hvM hdraw

/-- Witness for `no_overflow_exact_sum`: three draws of `4` from `[0, 5]`
sum to exactly `12`. -/
theorem no_overflow_exact_sum_attained :
    (((SumTask.make ⟨0, 3, 0, 5⟩).run (fun _ => 4)).result_ : Int) =
      ∑ i in Finset.range ((3 : Int)).toNat, (4 : Int) := by
  exact no_overflow_exact_sum ⟨0, 3, 0, 5⟩ (fun _ => 4) (by decide)
    (by decide) (by decide) (by decide) (by decide)
    (fun i => ⟨by norm_num, by norm_num⟩)

/-- Counterexample to C6 as stated: with `min_val = max_val = -5` and
`samples = 2` (a valid configuration with in-range draws), the exact
mathematical sum is `-10`, but the stored result is `2 ^ 64 - 10` — the
unsigned accumulation wrapped. -/
theorem exact_sum_fails_for_negative_values :
    (((SumTask.make ⟨1, 2, -5, -5⟩).run (fun _ => -5)).result_ : Int) =
        2 ^ 64 - 10 ∧
      ((2 : Int) ^ 64 - 10 ≠ ∑ i in Finset.range 2, (-5 : Int)) := by
  constructor
  · decide
  · norm_num [Finset.sum_const, Finset.card_range]

/-! ### Degenerate-range determinism -/

/-- C7: with `thread_count = 1, samples = 5, min = max = 7`, every run —
whatever the entropy- and clock-seeded generator produces, each drawn
value lies in `[7, 7]` — stores result exactly `35` for worker `0`, and
`best()` returns `(0, 35)`. -/
theorem degenerate_range_deterministic (draws : Nat → Nat → Int)
    (h : UniformDraws (draws 0) 7 7) :
    ((SumCoordinator.make 1 5 7 7).run_all draws).summaries = [(0, 35)] ∧
    ((SumCoordinator.make 1 5 7 7).run_all draws).best = some (0, 35) := by
  have hdraw : ∀ i, draws 0 i = 7 := fun i => le_antisymm (h i).2 (h i).1
  have htasks : ((SumCoordinator.make 1 5 7 7).run_all draws).tasks_ =
      [SumTask.run (draws 0) (SumTask.make ⟨0, 5, 7, 7⟩)] := rfl
  have hres : (SumTask.run (draws 0) (SumTask.make ⟨0, 5, 7, 7⟩)).result_ =
      35 := by
    show (List.range ((5 : Int)).toNat).foldl
        (fun acc i => (acc + toUInt64 (draws 0 i)) % UINT64_MOD) 0 = 35
    rw [List.foldl_ext _
      (fun acc _ => (acc + toUInt64 7) % UINT64_MOD) 0
      (fun a b _ => by rw [hdraw b])]
    decide
  constructor
  · simp [SumCoordinator.summaries, htasks, SumTask.id, SumTask.result,
      SumTask.run_cfg, hres]
    rfl
  · simp [SumCoordinator.best, htasks, maxElement, SumTask.id,
      SumTask.result, SumTask.run_cfg, hres]
    rfl

/-- Witness for `degenerate_range_deterministic` with the constant stream
`7`. -/
theorem degenerate_range_deterministic_attained :
    ((SumCoordinator.make 1 5 7 7).run_all (fun _ _ => 7)).summaries =
        [(0, 35)] ∧
      ((SumCoordinator.make 1 5 7 7).run_all (fun _ _ => 7)).best =
        some (0, 35) :=
  degenerate_range_deterministic (fun _ _ => 7)
    (fun i => ⟨le_refl 7, le_refl 7⟩)

end ThreadSum
